import Mathlib

namespace KemonoDL

/-! ## Decimal representation

`Nat.repr` is injective; we need this because the title deduplication loop
generates candidate titles `base_1`, `base_2`, ... and its correctness rests
on these being pairwise distinct. -/

/-- Recursive decimal printer equivalent to `Nat.toDigits 10`. -/
def decRepr (n : Nat) : List Char :=
  if _h : n < 10 then [Nat.digitChar n]
  else decRepr (n / 10) ++ [Nat.digitChar (n % 10)]
decreasing_by exact Nat.div_lt_self (by omega) (by omega)

/-- Decimal parser used to invert `decRepr`. -/
def parseDec (a : Nat) (l : List Char) : Nat :=
  l.foldl (fun x c => 10 * x + (c.toNat - 48)) a

/-! ## Python string operations

Character-list implementations of the `str` operations the program uses:
`split`, indexing `[-1]` and `[0]` after a split, `strip`, `startswith`,
`endswith`, `lower`, and `os.path.splitext`. -/

/-- `s.split(sep)` for a single-character separator (Python semantics:
always returns at least one piece, empty pieces included). -/
def splitChar (sep : Char) : List Char → List (List Char)
  | [] => [[]]
  | c :: rest =>
    let r := splitChar sep rest
    if c = sep then [] :: r
    else
      match r with
      | [] => [[c]]
      | h :: t => (c :: h) :: t

/-- `s.split(sep)[-1]`: the piece after the last separator. -/
def lastPieceData (sep : Char) (l : List Char) : List Char :=
  (splitChar sep l).getLastD []

/-- `s.split(c)[0]`: the piece before the first occurrence of `c`. -/
def beforeCharData (c : Char) (l : List Char) : List Char :=
  l.takeWhile (fun x => x ≠ c)

/-- `s.strip()`. -/
def stripData (l : List Char) : List Char :=
  ((l.dropWhile Char.isWhitespace).reverse.dropWhile Char.isWhitespace).reverse

/-- `s.startswith(p)`. -/
def startsWithData (l p : List Char) : Bool :=
  p.isPrefixOf l

/-- `s.endswith(p)`. -/
def endsWithData (l p : List Char) : Bool :=
  p.isSuffixOf l

/-- `s.lower()` (ASCII, which is all the program compares). -/
def lowerStr (s : String) : String :=
  { data := s.data.map Char.toLower }

/-- Consume the literal `lit` at the head of `l`, or fail. -/
def dropLit : List Char → List Char → Option (List Char)
  | [], l => some l
  | _ :: _, [] => none
  | c :: cs, x :: xs => if x = c then dropLit cs xs else none

/-- The extension part of `os.path.splitext`: the suffix of the final path
component starting at its last dot, provided a non-dot character precedes
that dot inside the component. -/
def splitextExtData (l : List Char) : List Char :=
  let b := lastPieceData '/' l
  let core := b.dropWhile (fun c => c = '.')
  if core.contains '.' then
    let tl := b.reverse.takeWhile (fun c => c ≠ '.')
    '.' :: tl.reverse
  else []

/-! ## Title resolution and deduplication

Model of `process_article_page` lines 145-164: sanitize the raw title,
fall back to `"untitled"`, extend untitled titles with the `/post/<digits>`
identifier (or a hash of the URL), then deduplicate against the shared
`existing_titles` registry with numeric `_1`, `_2`, ... suffixes. -/

/-- `re.sub(r"[\\/:\*\?\"<>|]", "_", title)`. -/
def sanitizeTitle (s : String) : String :=
  { data := s.data.map (fun c =>
      if c ∈ ['\\', '/', ':', '*', '?', '"', '<', '>', '|'] then '_' else c) }

/-- `re.search(r"/post/(\d+)", link)`: the digits captured at the first
position where `/post/` is followed by at least one digit. -/
def postDigitsData : List Char → Option (List Char)
  | [] => none
  | l@(_ :: rest) =>
    match dropLit ("/post/".data) l with
    | some r =>
      let ds := r.takeWhile Char.isDigit
      if ds.isEmpty then postDigitsData rest else some ds
    | none => postDigitsData rest

/-- Lines 145-157: resolve the article title from the optional
`h1.post__title` text, sanitizing and extending untitled articles. -/
def computeTitle (hashF : String → Int) (link : String) (titleEl : Option String) : String :=
  let t :=
    match titleEl with
    | some raw =>
      let s := sanitizeTitle raw
      if (stripData s.data).isEmpty then "untitled" else s
    | none => "untitled"
  if startsWithData t.data ("untitled".data) then
    let uid :=
      match postDigitsData link.data with
      | some ds => ({ data := ds } : String)
      | none => Int.repr (hashF link)
    t ++ "_" ++ uid
  else t

/-- The candidate titles the deduplication loop tries, in order:
the base itself, then `base_1`, `base_2`, ... -/
def mkCand (base : String) : Nat → String
  | 0 => base
  | k + 1 => base ++ "_" ++ Nat.repr (k + 1)

/-- Lines 159-163: `while title in existing_titles: title = f"{base_title}_{suffix}";
suffix += 1`, with fuel standing in for the unbounded loop. -/
def dedupLoop (ex : List String) (base : String) : Nat → String → Nat → String
  | 0, cur, _ => cur
  | f + 1, cur, suf =>
    if cur ∈ ex then dedupLoop ex base f (base ++ "_" ++ Nat.repr suf) (suf + 1)
    else cur

/-- The title finally registered for computed base `base` against the
registry `ex` (fuel `ex.length + 1` is enough, see `dedupLoop_spec`). -/
def registerTitle (ex : List String) (base : String) : String :=
  dedupLoop ex base (ex.length + 1) base 1

/-- Sequential registration of a run's articles `(link, optional raw title)`
into the shared registry, returning the registry contents in order. -/
def registerAll (hashF : String → Int) :
    List (String × Option String) → List String → List String
  | [], acc => acc
  | a :: rest, acc =>
    let t := registerTitle acc (computeTitle hashF a.1 a.2)
    registerAll hashF rest (acc ++ [t])

/-- The final titles of a run over the given articles. -/
def runTitles (hashF : String → Int) (arts : List (String × Option String)) : List String :=
  registerAll hashF arts []

/-! ## The download pipeline

State-passing model of `download_image`, `process_article_page` and the
first-pass/retry structure of `main`.  The environment supplies the
filesystem's pre-existing files (`fs`) and the HTTP outcome of fetching a
URL in a given round (`fetch`, round 0 being the first pass).  Besides the
program's own shared state (`progress`, `stats`, `failed_images`,
`existing_titles`, `url_to_path`) the state carries effect logs — files
written, URLs fetched, and every dispatcher invocation with its round and
destination — so claims about "no write", "no fetch" and retry targets can
be stated. -/

/-- Outcome of `session.get(url)`: an HTTP status, or a raised exception. -/
inductive FetchResult where
  | status (code : Nat)
  | exc (msg : String)

/-- The ambient world: which paths already exist on disk, and what fetching
a URL returns in a given retry round. -/
structure FetchEnv where
  fs : String → Bool
  fetch : String → Nat → FetchResult

/-- All shared mutable state of `main`, plus effect logs. -/
structure RunState where
  done : Nat := 0
  total : Nat := 0
  okFirst : Nat := 0
  okRetry : Nat := 0
  skip : Nat := 0
  failFinal : Nat := 0
  errFinal : Nat := 0
  failed : List String := []
  titles : List String := []
  urlToPath : List (String × String) := []
  written : List String := []
  fetchLog : List String := []
  dispatchLog : List (Nat × String × String) := []

/-- Python dict assignment `m[k] = v`: unconditional, replacing any
existing entry for `k`. -/
def dictInsert (m : List (String × String)) (k v : String) : List (String × String) :=
  if m.any (fun pr => pr.1 = k) then
    m.map (fun pr => if pr.1 = k then (k, v) else pr)
  else m ++ [(k, v)]

/-- Python `m.get(k)`. -/
def dictGet (m : List (String × String)) (k : String) : Option String :=
  (m.find? (fun pr => pr.1 = k)).map (fun pr => pr.2)

/-- `save_dir` joined with `url.split("/")[-1].split("?")[0]`, the default
destination used when no `save_path_override` is given. -/
def default_save_path (saveDir url : String) : String :=
  saveDir ++ "/" ++ ({ data := beforeCharData '?' (lastPieceData '/' url.data) } : String)

/-- Sum of all five outcome counters of the `stats` mapping. -/
def statsSum (st : RunState) : Nat :=
  st.okFirst + st.okRetry + st.skip + st.failFinal + st.errFinal

/-- `download_image` (lines 31-81): skip-if-exists, fetch, classify, and
update `progress["done"]`, `stats`, and `failed_images`.  Returns the
success flag together with the new state. -/
def download_image (env : FetchEnv) (round : Nat) (url saveDir : String)
    (save_path_override : Option String) (is_retry : Bool) (st : RunState) :
    Bool × RunState :=
  let save_path := save_path_override.getD (default_save_path saveDir url)
  let st := { st with dispatchLog := st.dispatchLog ++ [(round, url, save_path)] }
  if env.fs save_path || st.written.contains save_path then
    (true, { st with done := st.done + 1, skip := st.skip + 1 })
  else
    let st := { st with fetchLog := st.fetchLog ++ [url] }
    match env.fetch url round with
    | .status code =>
      if code = 200 then
        (true, { st with
          written := st.written ++ [save_path],
          done := st.done + 1,
          okFirst := if is_retry then st.okFirst else st.okFirst + 1,
          okRetry := if is_retry then st.okRetry + 1 else st.okRetry })
      else
        (false, { st with
          done := st.done + 1,
          failed := st.failed ++ [url],
          failFinal := if is_retry then st.failFinal + 1 else st.failFinal })
    | .exc _ =>
      (false, { st with
        done := st.done + 1,
        failed := st.failed ++ [url],
        errFinal := if is_retry then st.errFinal + 1 else st.errFinal })

/-- What one attempt of `process_article_page` observes of the rendered
page: whether `page.goto` succeeded, the optional `h1.post__title` text,
whether any `figure` element is present, and the extracted image URLs. -/
structure AttemptEnv where
  navOk : Bool
  titleEl : Option String
  figures : Bool
  imgs : List String

/-- An article link together with what each attempt's rendering observes. -/
structure ArticleInput where
  link : String
  attempts : List AttemptEnv

/-- Lines 181-185: the `(img, save_path)` pairs of one article, filename
`f"{title}_{idx}{ext}"` with `idx` starting at 1 and the extension
defaulting to `.jpg`. -/
def articleTasks (saveDir title : String) (imgs : List String) : List (String × String) :=
  (List.enumFrom 1 imgs).map (fun pr =>
    let ext0 : String := { data := beforeCharData '?' (splitextExtData pr.2.data) }
    let ext : String := if ext0 = "" then ".jpg" else ext0
    (pr.2, saveDir ++ "/" ++ title ++ "_" ++ Nat.repr pr.1 ++ ext))

/-- Line 185: record `url_to_path[img] = save_path` for every image, in
order, before any download task runs. -/
def writeMappings (pairs : List (String × String)) (st : RunState) : RunState :=
  pairs.foldl (fun s pr => { s with urlToPath := dictInsert s.urlToPath pr.1 pr.2 }) st

/-- Lines 186-199: dispatch all of the article's downloads (round 0,
`is_retry = False`, each with its recorded override path). -/
def runDownloads (env : FetchEnv) (saveDir : String)
    (pairs : List (String × String)) (st : RunState) : RunState :=
  pairs.foldl (fun s pr => (download_image env 0 pr.1 saveDir (some pr.2) false s).2) st

def MAX_RETRY : Nat := 2
def MAX_PAGE_RETRY : Nat := 2

/-- `process_article_page` (lines 105-202): up to `MAX_PAGE_RETRY + 1`
attempts; a failed navigation retries or abandons; the title is computed
and registered on every attempt that navigates; a page with no `figure`
retries or abandons; otherwise `total` grows by the image count, the
URL-to-path mapping is recorded, and all downloads are dispatched. -/
def process_article_page (env : FetchEnv) (hashF : String → Int)
    (saveDir link : String) (attempts : List AttemptEnv) :
    Nat → Nat → RunState → RunState
  | 0, _, st => st
  | fuel + 1, attempt, st =>
    let a := attempts.getD attempt ⟨false, none, false, []⟩
    if a.navOk then
      let t := registerTitle st.titles (computeTitle hashF link a.titleEl)
      let st1 := { st with titles := st.titles ++ [t] }
      if a.figures then
        let st2 := { st1 with total := st1.total + a.imgs.length }
        let pairs := articleTasks saveDir t a.imgs
        runDownloads env saveDir pairs (writeMappings pairs st2)
      else if attempt < MAX_PAGE_RETRY then
        process_article_page env hashF saveDir link attempts fuel (attempt + 1) st1
      else st1
    else if attempt < MAX_PAGE_RETRY then
      process_article_page env hashF saveDir link attempts fuel (attempt + 1) st
    else st

/-- The first pass of `main` (lines 281-298): every collected article is
processed. -/
def runFirstPass (env : FetchEnv) (hashF : String → Int) (saveDir : String)
    (arts : List ArticleInput) (st : RunState) : RunState :=
  arts.foldl (fun s a =>
    process_article_page env hashF saveDir a.link a.attempts (MAX_PAGE_RETRY + 1) 0 s) st

/-- One retry round (lines 306-322): re-dispatch every URL of the previous
failure list with `save_path_override = url_to_path.get(url)` and
`is_retry = True`, collecting new failures into a fresh list. -/
def runRound (env : FetchEnv) (saveDir : String) (round : Nat) (st : RunState) : RunState :=
  st.failed.foldl
    (fun s url =>
      (download_image env round url saveDir (dictGet s.urlToPath url) true s).2)
    { st with failed := [] }

/-- Lines 303-322: `for attempt in range(MAX_RETRY): if not failed_images:
break; ...` — at most `fuel` rounds, stopping at the first empty failure
list. -/
def retryLoop (env : FetchEnv) (saveDir : String) : Nat → Nat → RunState → RunState
  | 0, _, st => st
  | fuel + 1, round, st =>
    if st.failed = [] then st
    else retryLoop env saveDir fuel (round + 1) (runRound env saveDir round st)

/-- The whole download phase of `main`: first pass then retry rounds. -/
def runPipeline (env : FetchEnv) (hashF : String → Int) (saveDir : String)
    (arts : List ArticleInput) : RunState :=
  retryLoop env saveDir MAX_RETRY 1 (runFirstPass env hashF saveDir arts {})

/-! ## Listing paginator

Model of `main` lines 217-220 and 239-241: scan the page text for
`Showing\s+\d+\s*-\s*\d+\s+of\s+(\d+)`, defaulting to 0, and build the
page URL list `[base] ++ [f"{base}?o={offset}" for offset in
range(50, total_items, 50)]`. -/

/-- At least one whitespace character (`\s+`), maximal munch. -/
def dropWs1 : List Char → Option (List Char)
  | [] => none
  | c :: rest => if c.isWhitespace then some (rest.dropWhile Char.isWhitespace) else none

/-- `\s*`. -/
def dropWs0 (l : List Char) : List Char :=
  l.dropWhile Char.isWhitespace

/-- `\d+`, maximal munch, returning the digits and the rest. -/
def takeDigits1 (l : List Char) : Option (List Char × List Char) :=
  let ds := l.takeWhile Char.isDigit
  if ds.isEmpty then none else some (ds, l.drop ds.length)

/-- `int` of a digit string. -/
def digitsToNat (ds : List Char) : Nat :=
  ds.foldl (fun a c => 10 * a + (c.toNat - 48)) 0

/-- Match `Showing\s+\d+\s*-\s*\d+\s+of\s+(\d+)` at the head of `l`,
returning the captured count. -/
def matchShowingAt (l : List Char) : Option Nat :=
  (dropLit ("Showing".data) l).bind fun l1 =>
  (dropWs1 l1).bind fun l2 =>
  (takeDigits1 l2).bind fun pr3 =>
  (dropLit ['-'] (dropWs0 pr3.2)).bind fun l4 =>
  (takeDigits1 (dropWs0 l4)).bind fun pr5 =>
  (dropWs1 pr5.2).bind fun l6 =>
  (dropLit ("of".data) l6).bind fun l7 =>
  (dropWs1 l7).bind fun l8 =>
  (takeDigits1 l8).map fun pr9 => digitsToNat pr9.1

/-- `re.search`: try every position left to right. -/
def searchShowing : List Char → Option Nat
  | [] => matchShowingAt []
  | l@(_ :: rest) =>
    match matchShowingAt l with
    | some n => some n
    | none => searchShowing rest

/-- Line 220: `int(match.group(1)) if match else 0`. -/
def totalItemsOf (text : String) : Nat :=
  (searchShowing text.data).getD 0

/-- Python `range(start, stop, step)` for positive `step`. -/
def pyRange (start stop step : Nat) : List Nat :=
  (List.range ((stop - start + step - 1) / step)).map (fun k => start + k * step)

/-- Lines 239-241: the listing page URLs. -/
def page_urls (base : String) (total_items : Nat) : List String :=
  base :: (pyRange 50 total_items 50).map (fun o => base ++ "?o=" ++ Nat.repr o)

/-! ## Link collectors -/

/-- What rendering one listing page yields: its `article a` anchors'
optional hrefs, or a navigation failure, or a `wait_for_selector`
timeout. -/
inductive PageOutcome where
  | ok (anchors : List (Option String))
  | navFail
  | waitTimeout

/-- `get_article_links` (lines 84-90): hrefs that are present, resolved
against the page URL (`resolve` standing for `urljoin(base_url, ·)`); a
falsy href (Python `None` or the empty string) is modelled as `none`. -/
def get_article_links (resolve : String → String) (anchors : List (Option String)) :
    List String :=
  (anchors.filterMap id).map resolve

/-- `fetch_article_links` (lines 247-255): there is no exception handler,
so a navigation failure or selector timeout escapes as an error. -/
def fetch_article_links (resolve : String → String) :
    PageOutcome → Except String (List String)
  | .ok anchors => .ok (get_article_links resolve anchors)
  | .navFail => .error "goto failed"
  | .waitTimeout => .error "wait_for_selector timeout"

/-- `asyncio.gather` without `return_exceptions`: any raised exception
propagates to the awaiter. -/
def gatherExcept : List (Except String (List String)) → Except String (List (List String))
  | [] => .ok []
  | .error e :: _ => .error e
  | .ok x :: rest => (gatherExcept rest).map (fun r => x :: r)

/-- Lines 257-263: crawl all listing pages and flatten the results. -/
def collectArticleLinks (resolve : String → String) (pages : List PageOutcome) :
    Except String (List String) :=
  (gatherExcept (pages.map (fetch_article_links resolve))).map List.flatten

/-- Whether a page outcome is a successful render. -/
def pageOk : PageOutcome → Bool
  | .ok _ => true
  | _ => false

/-- The links a successfully rendered page contributes. -/
def pageLinks (resolve : String → String) : PageOutcome → List String
  | .ok anchors => get_article_links resolve anchors
  | _ => []

/-! ## Image-link extraction -/

def IMG_EXTENSIONS : List String :=
  [".jpg", ".jpeg", ".png", ".gif", ".webp", ".bmp"]

/-- `is_image_url` (lines 17-18): `url.lower().endswith(IMG_EXTENSIONS)` —
the check runs on the whole URL string. -/
def is_image_url (url : String) : Bool :=
  IMG_EXTENSIONS.any (fun e => endsWithData (lowerStr url).data e.data)

/-- `get_image_links` (lines 93-102): walk the anchors in document order,
resolve each present href, and keep those passing `is_image_url`; a falsy
href (Python `None` or the empty string) is modelled as `none`. -/
def get_image_links_aux (resolve : String → String) :
    List (Option String) → List String → List String
  | [], acc => acc
  | none :: rest, acc => get_image_links_aux resolve rest acc
  | some href :: rest, acc =>
    let full_url := resolve href
    if is_image_url full_url then get_image_links_aux resolve rest (acc ++ [full_url])
    else get_image_links_aux resolve rest acc

def get_image_links (resolve : String → String) (anchors : List (Option String)) :
    List String :=
  get_image_links_aux resolve anchors []

/-! ## Definitions modelled from the specification's words

These two definitions deliberately follow the SPEC, not the source; they
exist only to be compared against the source-derived definitions above. -/

/-- Modelled from the spec: "Record the URL→destination mapping only if the
URL is not already present (first writer wins)" — what line 185 would do if
it guarded the assignment. -/
def dictInsertFirstWins (m : List (String × String)) (k v : String) :
    List (String × String) :=
  if m.any (fun pr => pr.1 = k) then m else m ++ [(k, v)]

/-- The remainder of the string after the first occurrence of `://`. -/
def afterSchemeSep : List Char → Option (List Char)
  | [] => none
  | l@(_ :: rest) =>
    match dropLit ("://".data) l with
    | some r => some r
    | none => afterSchemeSep rest

/-- Modelled from the spec: the URL's path component — the part after the
scheme and authority, up to the first `?` or `#` — which the spec says is
what the image-extension check inspects. -/
def urlPathComponent (u : String) : String :=
  let rest :=
    match afterSchemeSep u.data with
    | some r => r.dropWhile (fun c => c ≠ '/')
    | none => u.data
  { data := rest.takeWhile (fun c => c ≠ '?' && c ≠ '#') }

/-! ## A run over a fully pre-populated destination directory -/

/-- Invariant of a run in which every dispatcher invocation SKIPs: nothing
written, nothing fetched, no failures, no non-SKIP classifications, and one
SKIP per completed download. -/
def CleanState (st : RunState) : Prop :=
  st.written = [] ∧ st.fetchLog = [] ∧ st.failed = [] ∧ st.okFirst = 0 ∧
  st.okRetry = 0 ∧ st.failFinal = 0 ∧ st.errFinal = 0 ∧ st.skip = st.done

/-! ## Claim scenarios (concrete runs used by counterexamples/witnesses) -/

/-- C1 scenario: the single image 404s on the first pass, succeeds in
retry round 1. -/
def envC1 : FetchEnv :=
  ⟨fun _ => false, fun _ r => if r = 0 then .status 404 else .status 200⟩

def artC1 : ArticleInput :=
  ⟨"http://h/post/1", [⟨true, some "A", true, ["http://h/i.jpg"]⟩]⟩

/-- C3 scenario: the same image URL appears twice on one page. -/
def envC3 : FetchEnv := ⟨fun _ => false, fun _ _ => .status 200⟩

def artC3 : ArticleInput :=
  ⟨"http://h/post/3", [⟨true, some "T", true, ["http://h/i.jpg", "http://h/i.jpg"]⟩]⟩

/-- C4 scenario: a first-pass fetch returning HTTP 404. -/
def envC4 : FetchEnv := ⟨fun _ => false, fun _ _ => .status 404⟩

/-- C5 scenario: two articles both link the same image, every fetch 404s. -/
def envC5 : FetchEnv := ⟨fun _ => false, fun _ _ => .status 404⟩

def artC5A : ArticleInput :=
  ⟨"http://h/post/1", [⟨true, some "A", true, ["http://h/i.jpg"]⟩]⟩

def artC5B : ArticleInput :=
  ⟨"http://h/post/2", [⟨true, some "B", true, ["http://h/i.jpg"]⟩]⟩

/-- C10 scenario: attempt 0 finds the title but no figure, attempt 1 finds
the same title and a figure. -/
def envC10 : FetchEnv := ⟨fun _ => false, fun _ _ => .status 200⟩

def artC10 : ArticleInput :=
  ⟨"http://h/post/9",
   [⟨true, some "T", false, []⟩, ⟨true, some "T", true, ["http://h/i.jpg"]⟩]⟩

/-! ## Lemmas: decimal representation and the title registry -/

theorem toDigitsCore_eq_decRepr :
    ∀ (fuel n : Nat) (ds : List Char), n < fuel →
      Nat.toDigitsCore 10 fuel n ds = decRepr n ++ ds := by
  intro fuel
  induction fuel with
  | zero => intro n ds h; omega
  | succ f ih =>
    intro n ds h
    show (if n / 10 = 0 then Nat.digitChar (n % 10) :: ds
          else Nat.toDigitsCore 10 f (n / 10) (Nat.digitChar (n % 10) :: ds))
        = decRepr n ++ ds
    by_cases h10 : n / 10 = 0
    · have hn : n < 10 := by omega
      rw [if_pos h10, decRepr, dif_pos hn]
      have : n % 10 = n := Nat.mod_eq_of_lt hn
      rw [this]
      rfl
    · have hn : ¬ n < 10 := by omega
      have hlt : n / 10 < f := by
        have h1 : n / 10 < n := Nat.div_lt_self (by omega) (by omega)
        omega
      rw [if_neg h10, ih (n / 10) (Nat.digitChar (n % 10) :: ds) hlt]
      conv_rhs => rw [decRepr]
      rw [dif_neg hn, List.append_assoc]
      rfl

theorem digitChar_toNat_sub (n : Nat) (h : n < 10) :
    (Nat.digitChar n).toNat - 48 = n := by
  interval_cases n <;> rfl

theorem parseDec_decRepr (n : Nat) :
    ∀ a : Nat, parseDec a (decRepr n) = a * 10 ^ (decRepr n).length + n := by
  induction n using Nat.strong_induction_on with
  | _ n ih =>
    intro a
    by_cases h : n < 10
    · rw [decRepr, dif_pos h]
      show 10 * a + ((Nat.digitChar n).toNat - 48) = a * 10 ^ 1 + n
      rw [digitChar_toNat_sub n h]
      ring
    · rw [decRepr, dif_neg h]
      have hlt : n / 10 < n := Nat.div_lt_self (by omega) (by omega)
      have hmod : n % 10 < 10 := Nat.mod_lt _ (by omega)
      unfold parseDec
      rw [List.foldl_append]
      have ih1 := ih (n / 10) hlt a
      unfold parseDec at ih1
      rw [ih1]
      simp only [List.foldl_cons, List.foldl_nil, List.length_append, List.length_cons,
        List.length_nil]
      rw [digitChar_toNat_sub _ hmod, pow_succ]
      have hdm : 10 * (n / 10) + n % 10 = n := Nat.div_add_mod n 10
      ring_nf
      omega

theorem decRepr_injective {m n : Nat} (h : decRepr m = decRepr n) : m = n := by
  have hm := parseDec_decRepr m 0
  have hn := parseDec_decRepr n 0
  rw [h] at hm
  omega

theorem natRepr_injective {m n : Nat} (h : Nat.repr m = Nat.repr n) : m = n := by
  have hm : Nat.repr m = { data := decRepr m } := by
    show (Nat.toDigits 10 m).asString = _
    unfold Nat.toDigits
    rw [toDigitsCore_eq_decRepr (m + 1) m [] (by omega), List.append_nil]
    rfl
  have hn : Nat.repr n = { data := decRepr n } := by
    show (Nat.toDigits 10 n).asString = _
    unfold Nat.toDigits
    rw [toDigitsCore_eq_decRepr (n + 1) n [] (by omega), List.append_nil]
    rfl
  rw [hm, hn] at h
  exact decRepr_injective (congrArg String.data h)

theorem mkCand_inj (base : String) : Function.Injective (mkCand base) := by
  have hlen : ∀ k : Nat, base ≠ base ++ "_" ++ Nat.repr (k + 1) := by
    intro k h
    have := congrArg String.length h
    simp only [String.length_append] at this
    have h1 : (1 : Nat) ≤ ("_" : String).length + (Nat.repr (k + 1)).length := by
      have : ("_" : String).length = 1 := rfl
      omega
    omega
  intro i j hij
  match i, j with
  | 0, 0 => rfl
  | 0, k + 1 => exact absurd hij (hlen k)
  | k + 1, 0 => exact absurd hij.symm (hlen k)
  | i + 1, j + 1 =>
    have hij' : base ++ "_" ++ Nat.repr (i + 1) = base ++ "_" ++ Nat.repr (j + 1) := hij
    have hd := congrArg String.data hij'
    simp only [String.data_append] at hd
    have h2 := List.append_cancel_left hd
    have h3 : Nat.repr (i + 1) = Nat.repr (j + 1) := String.ext h2
    have := natRepr_injective h3
    omega

theorem dedupLoop_spec (ex : List String) (base : String) :
    ∀ (f j : Nat), (∃ i, i ≤ f ∧ mkCand base (j + i) ∉ ex) →
      ∃ i, i ≤ f ∧ dedupLoop ex base f (mkCand base j) (j + 1) = mkCand base (j + i) ∧
        mkCand base (j + i) ∉ ex ∧ ∀ i' < i, mkCand base (j + i') ∈ ex := by
  intro f
  induction f with
  | zero =>
    intro j h
    obtain ⟨i, hi, hnot⟩ := h
    have hi0 : i = 0 := by omega
    subst hi0
    exact ⟨0, le_refl 0, rfl, hnot, by omega⟩
  | succ f ih =>
    intro j hex
    by_cases hcur : mkCand base j ∈ ex
    · have hne : ∃ i, i ≤ f ∧ mkCand base ((j + 1) + i) ∉ ex := by
        obtain ⟨i, hi, hnot⟩ := hex
        match i with
        | 0 => exact absurd hcur (by simpa using hnot)
        | i + 1 =>
          refine ⟨i, by omega, ?_⟩
          have : j + 1 + i = j + (i + 1) := by omega
          rw [this]
          exact hnot
      obtain ⟨i0, hi0, heq, hnot0, hleast⟩ := ih (j + 1) hne
      refine ⟨i0 + 1, by omega, ?_, ?_, ?_⟩
      · show dedupLoop ex base (f + 1) (mkCand base j) (j + 1) = _
        rw [dedupLoop, if_pos hcur]
        have hstep : base ++ "_" ++ Nat.repr (j + 1) = mkCand base (j + 1) := rfl
        rw [hstep]
        have hidx : j + 1 + i0 = j + (i0 + 1) := by omega
        rw [← hidx]
        exact heq
      · have hidx : j + 1 + i0 = j + (i0 + 1) := by omega
        rw [← hidx]
        exact hnot0
      · intro i' hi'
        match i' with
        | 0 => exact hcur
        | i'' + 1 =>
          have hidx : j + (i'' + 1) = j + 1 + i'' := by omega
          rw [hidx]
          exact hleast i'' (by omega)
    · exact ⟨0, by omega, by rw [dedupLoop, if_neg hcur, Nat.add_zero],
        by simpa using hcur, by omega⟩

theorem mkCand_exists_fresh (ex : List String) (base : String) :
    ∃ i, i ≤ ex.length + 1 ∧ mkCand base i ∉ ex := by
  by_contra hall
  push_neg at hall
  have hsub : (Finset.range (ex.length + 2)).image (mkCand base) ⊆ ex.toFinset := by
    intro s hs
    rw [Finset.mem_image] at hs
    obtain ⟨i, hi, rfl⟩ := hs
    rw [Finset.mem_range] at hi
    rw [List.mem_toFinset]
    exact hall i (by omega)
  have hcard : ex.length + 2 ≤ ex.toFinset.card := by
    calc ex.length + 2 = (Finset.range (ex.length + 2)).card := by simp
    _ = ((Finset.range (ex.length + 2)).image (mkCand base)).card :=
        (Finset.card_image_of_injective _ (mkCand_inj base)).symm
    _ ≤ ex.toFinset.card := Finset.card_le_card hsub
  have := ex.toFinset_card_le
  omega

theorem registerTitle_spec (ex : List String) (base : String) :
    ∃ k, registerTitle ex base = mkCand base k ∧ mkCand base k ∉ ex ∧
      ∀ j < k, mkCand base j ∈ ex := by
  obtain ⟨i, hi, hfresh⟩ := mkCand_exists_fresh ex base
  have h := dedupLoop_spec ex base (ex.length + 1) 0 ⟨i, hi, by simpa using hfresh⟩
  obtain ⟨k, _, heq, hnot, hleast⟩ := h
  refine ⟨k, ?_, by simpa using hnot, fun j hj => by simpa using hleast j hj⟩
  show dedupLoop ex base (ex.length + 1) base 1 = _
  have h0 : (base : String) = mkCand base 0 := rfl
  rw [h0]
  simpa using heq

theorem registerTitle_fresh (ex : List String) (base : String) :
    registerTitle ex base ∉ ex := by
  obtain ⟨k, heq, hnot, _⟩ := registerTitle_spec ex base
  rw [heq]
  exact hnot

theorem registerTitle_keeps_base (ex : List String) (base : String)
    (hb : base ∉ ex) : registerTitle ex base = base := by
  obtain ⟨k, heq, _, hleast⟩ := registerTitle_spec ex base
  match k, heq with
  | 0, heq => exact heq
  | k + 1, heq => exact absurd (hleast 0 (by omega)) hb

theorem registerAll_nodup (hashF : String → Int) :
    ∀ (arts : List (String × Option String)) (acc : List String),
      acc.Nodup → (registerAll hashF arts acc).Nodup := by
  intro arts
  induction arts with
  | nil => intro acc h; exact h
  | cons a rest ih =>
    intro acc h
    apply ih
    rw [List.nodup_append]
    refine ⟨h, List.nodup_singleton _, ?_⟩
    intro x hx hmem
    rw [List.mem_singleton] at hmem
    subst hmem
    exact registerTitle_fresh acc _ hx

/-! ## Effect lemmas for the pipeline model -/

theorem download_image_effects (env : FetchEnv) (round : Nat) (url saveDir : String)
    (ov : Option String) (ir : Bool) (st : RunState) :
    ((download_image env round url saveDir ov ir st).2.done = st.done + 1) ∧
    ((download_image env round url saveDir ov ir st).2.total = st.total) ∧
    ((download_image env round url saveDir ov ir st).2.titles = st.titles) ∧
    ((download_image env round url saveDir ov ir st).2.urlToPath = st.urlToPath) ∧
    ((download_image env round url saveDir ov ir st).2.dispatchLog =
      st.dispatchLog ++ [(round, url, ov.getD (default_save_path saveDir url))]) := by
  unfold download_image
  dsimp only
  split
  · simp
  · split <;> [split <;> simp; simp]

/-- With every path already on disk, the dispatcher always takes the SKIP
branch: flag true, `done` and SKIP up by one, nothing else touched. -/
theorem download_image_allExists (env : FetchEnv) (henv : ∀ p, env.fs p = true)
    (round : Nat) (url saveDir : String) (ov : Option String) (ir : Bool) (st : RunState) :
    download_image env round url saveDir ov ir st =
      (true, { st with
        dispatchLog := st.dispatchLog ++
          [(round, url, ov.getD (default_save_path saveDir url))],
        done := st.done + 1, skip := st.skip + 1 }) := by
  unfold download_image
  dsimp only
  rw [henv]
  simp

theorem writeMappings_eq (pairs : List (String × String)) :
    ∀ st : RunState, writeMappings pairs st =
      { st with urlToPath := pairs.foldl (fun m pr => dictInsert m pr.1 pr.2) st.urlToPath } := by
  induction pairs with
  | nil => intro st; rfl
  | cons p ps ih =>
    intro st
    show writeMappings ps _ = _
    rw [ih]
    rfl

theorem runDownloads_effects (env : FetchEnv) (saveDir : String) :
    ∀ (pairs : List (String × String)) (st : RunState),
      ((runDownloads env saveDir pairs st).done = st.done + pairs.length) ∧
      ((runDownloads env saveDir pairs st).total = st.total) ∧
      ((runDownloads env saveDir pairs st).titles = st.titles) ∧
      ((runDownloads env saveDir pairs st).dispatchLog =
        st.dispatchLog ++ pairs.map (fun pr => (0, pr.1, pr.2))) := by
  intro pairs
  induction pairs with
  | nil => intro st; simp [runDownloads]
  | cons p ps ih =>
    intro st
    have hstep := download_image_effects env 0 p.1 saveDir (some p.2) false st
    have hps := ih (download_image env 0 p.1 saveDir (some p.2) false st).2
    obtain ⟨h1, h2, h3, _, h5⟩ := hstep
    obtain ⟨g1, g2, g3, g4⟩ := hps
    have hshape : runDownloads env saveDir (p :: ps) st =
        runDownloads env saveDir ps (download_image env 0 p.1 saveDir (some p.2) false st).2 := rfl
    rw [hshape]
    refine ⟨?_, ?_, ?_, ?_⟩
    · rw [g1, h1]; simp; omega
    · rw [g2, h2]
    · rw [g3, h3]
    · rw [g4, h5]; simp

/-- The fold of one retry round over a list of failed URLs. -/
theorem retryFold_effects (env : FetchEnv) (saveDir : String) (round : Nat) :
    ∀ (urls : List String) (s : RunState),
      ((urls.foldl (fun s url =>
          (download_image env round url saveDir (dictGet s.urlToPath url) true s).2) s).done
        = s.done + urls.length) ∧
      ((urls.foldl (fun s url =>
          (download_image env round url saveDir (dictGet s.urlToPath url) true s).2) s).total
        = s.total) ∧
      ((urls.foldl (fun s url =>
          (download_image env round url saveDir (dictGet s.urlToPath url) true s).2) s).titles
        = s.titles) ∧
      ((urls.foldl (fun s url =>
          (download_image env round url saveDir (dictGet s.urlToPath url) true s).2) s).urlToPath
        = s.urlToPath) ∧
      ((urls.foldl (fun s url =>
          (download_image env round url saveDir (dictGet s.urlToPath url) true s).2) s).dispatchLog
        = s.dispatchLog ++ urls.map (fun u =>
            (round, u, (dictGet s.urlToPath u).getD (default_save_path saveDir u)))) := by
  intro urls
  induction urls with
  | nil => intro s; simp
  | cons u us ih =>
    intro s
    simp only [List.foldl_cons, List.length_cons, List.map_cons]
    have hstep := download_image_effects env round u saveDir (dictGet s.urlToPath u) true s
    obtain ⟨h1, h2, h3, h4, h5⟩ := hstep
    have hus := ih (download_image env round u saveDir (dictGet s.urlToPath u) true s).2
    obtain ⟨g1, g2, g3, g4, g5⟩ := hus
    refine ⟨?_, ?_, ?_, ?_, ?_⟩
    · rw [g1, h1]; omega
    · rw [g2, h2]
    · rw [g3, h3]
    · rw [g4, h4]
    · rw [g5, h5, h4]
      simp

theorem runRound_effects (env : FetchEnv) (saveDir : String) (round : Nat) (st : RunState) :
    ((runRound env saveDir round st).done = st.done + st.failed.length) ∧
    ((runRound env saveDir round st).total = st.total) ∧
    ((runRound env saveDir round st).titles = st.titles) ∧
    ((runRound env saveDir round st).urlToPath = st.urlToPath) ∧
    ((runRound env saveDir round st).dispatchLog =
      st.dispatchLog ++ st.failed.map (fun u =>
        (round, u, (dictGet st.urlToPath u).getD (default_save_path saveDir u)))) := by
  have h := retryFold_effects env saveDir round st.failed { st with failed := [] }
  exact h

theorem retryLoop_total (env : FetchEnv) (saveDir : String) :
    ∀ (fuel round : Nat) (st : RunState),
      ((retryLoop env saveDir fuel round st).total = st.total) ∧
      ((retryLoop env saveDir fuel round st).titles = st.titles) := by
  intro fuel
  induction fuel with
  | zero => intro round st; exact ⟨rfl, rfl⟩
  | succ f ih =>
    intro round st
    by_cases hf : st.failed = []
    · simp [retryLoop, hf]
    · simp only [retryLoop, if_neg hf]
      obtain ⟨h1, h2⟩ := ih (round + 1) (runRound env saveDir round st)
      obtain ⟨_, g2, g3, _, _⟩ := runRound_effects env saveDir round st
      exact ⟨h1.trans g2, h2.trans g3⟩

theorem retryLoop_stops_when_empty (env : FetchEnv) (saveDir : String)
    (fuel round : Nat) (st : RunState) (h : st.failed = []) :
    retryLoop env saveDir fuel round st = st := by
  cases fuel with
  | zero => rfl
  | succ f => simp only [retryLoop, if_pos h]

theorem retryLoop_done_ge (env : FetchEnv) (saveDir : String) :
    ∀ (fuel round : Nat) (st : RunState),
      st.done + (if st.failed = [] ∨ fuel = 0 then 0 else st.failed.length) ≤
        (retryLoop env saveDir fuel round st).done := by
  intro fuel
  induction fuel with
  | zero => intro round st; simp [retryLoop]
  | succ f ih =>
    intro round st
    by_cases hf : st.failed = []
    · simp [retryLoop, hf]
    · have hstep := runRound_effects env saveDir round st
      obtain ⟨h1, _, _, _, _⟩ := hstep
      have hrec := ih (round + 1) (runRound env saveDir round st)
      have heq : (retryLoop env saveDir (f + 1) round st) =
          retryLoop env saveDir f (round + 1) (runRound env saveDir round st) := by
        simp only [retryLoop, if_neg hf]
      rw [heq]
      simp only [hf, or_false]
      split <;> omega

theorem articleTasks_length (saveDir title : String) (imgs : List String) :
    (articleTasks saveDir title imgs).length = imgs.length := by
  simp [articleTasks]

/-- Effects of lines 177-199 taken together: `total` grows by the image
count, the dispatched downloads grow `done` by the same count, and every
dispatch-log entry added is a round-0 entry. -/
theorem dispatch_phase_effects (env : FetchEnv) (saveDir t : String)
    (imgs : List String) (st0 : RunState) :
    ((runDownloads env saveDir (articleTasks saveDir t imgs)
        (writeMappings (articleTasks saveDir t imgs) st0)).total = st0.total) ∧
    ((runDownloads env saveDir (articleTasks saveDir t imgs)
        (writeMappings (articleTasks saveDir t imgs) st0)).done = st0.done + imgs.length) ∧
    ((runDownloads env saveDir (articleTasks saveDir t imgs)
        (writeMappings (articleTasks saveDir t imgs) st0)).titles = st0.titles) ∧
    ((runDownloads env saveDir (articleTasks saveDir t imgs)
        (writeMappings (articleTasks saveDir t imgs) st0)).dispatchLog =
      st0.dispatchLog ++ (articleTasks saveDir t imgs).map (fun pr => (0, pr.1, pr.2))) := by
  rw [writeMappings_eq]
  obtain ⟨e1, e2, e3, e4⟩ := runDownloads_effects env saveDir (articleTasks saveDir t imgs)
    { st0 with urlToPath :=
        ((articleTasks saveDir t imgs).foldl (fun m pr => dictInsert m pr.1 pr.2) st0.urlToPath) }
  refine ⟨?_, ?_, ?_, ?_⟩
  · rw [e2]
  · rw [e1, articleTasks_length]
  · rw [e3]
  · rw [e4]

/-- One article's processing: matched increments of `total` and `done`,
titles only appended, and only round-0 dispatch-log entries added. -/
theorem process_article_page_delta (env : FetchEnv) (hashF : String → Int)
    (saveDir link : String) (attempts : List AttemptEnv) :
    ∀ (fuel attempt : Nat) (st : RunState),
      ∃ (k : Nat) (l : List String) (newL : List (Nat × String × String)),
        (process_article_page env hashF saveDir link attempts fuel attempt st).total
          = st.total + k ∧
        (process_article_page env hashF saveDir link attempts fuel attempt st).done
          = st.done + k ∧
        (process_article_page env hashF saveDir link attempts fuel attempt st).titles
          = st.titles ++ l ∧
        (process_article_page env hashF saveDir link attempts fuel attempt st).dispatchLog
          = st.dispatchLog ++ newL ∧
        (∀ e ∈ newL, e.1 = 0) := by
  intro fuel
  induction fuel with
  | zero =>
    intro attempt st
    exact ⟨0, [], [], rfl, rfl, by simp [process_article_page],
      by simp [process_article_page], by simp⟩
  | succ f ih =>
    intro attempt st
    simp only [process_article_page]
    by_cases hnav : (attempts.getD attempt ⟨false, none, false, []⟩).navOk = true
    · rw [if_pos hnav]
      by_cases hfig : (attempts.getD attempt ⟨false, none, false, []⟩).figures = true
      · rw [if_pos hfig]
        obtain ⟨e1, e2, e3, e4⟩ := dispatch_phase_effects env saveDir
          (registerTitle st.titles (computeTitle hashF link
            (attempts.getD attempt ⟨false, none, false, []⟩).titleEl))
          (attempts.getD attempt ⟨false, none, false, []⟩).imgs
          { st with
            titles := st.titles ++ [registerTitle st.titles (computeTitle hashF link
              (attempts.getD attempt ⟨false, none, false, []⟩).titleEl)],
            total := st.total + (attempts.getD attempt ⟨false, none, false, []⟩).imgs.length }
        refine ⟨(attempts.getD attempt ⟨false, none, false, []⟩).imgs.length,
          [registerTitle st.titles (computeTitle hashF link
            (attempts.getD attempt ⟨false, none, false, []⟩).titleEl)],
          (articleTasks saveDir
            (registerTitle st.titles (computeTitle hashF link
              (attempts.getD attempt ⟨false, none, false, []⟩).titleEl))
            (attempts.getD attempt ⟨false, none, false, []⟩).imgs).map
              (fun pr => (0, pr.1, pr.2)), ?_, ?_, ?_, ?_, ?_⟩
        · exact e1
        · exact e2
        · exact e3
        · exact e4
        · intro e he
          simp only [List.mem_map] at he
          obtain ⟨pr, _, rfl⟩ := he
          rfl
      · rw [if_neg hfig]
        by_cases hret : attempt < MAX_PAGE_RETRY
        · rw [if_pos hret]
          obtain ⟨k, l, nl, d1, d2, d3, d4, d5⟩ := ih (attempt + 1)
            { st with titles := st.titles ++ [registerTitle st.titles (computeTitle hashF link
                (attempts.getD attempt ⟨false, none, false, []⟩).titleEl)] }
          exact ⟨k, [registerTitle st.titles (computeTitle hashF link
              (attempts.getD attempt ⟨false, none, false, []⟩).titleEl)] ++ l, nl,
            d1, d2, by rw [d3]; simp, d4, d5⟩
        · rw [if_neg hret]
          exact ⟨0, [registerTitle st.titles (computeTitle hashF link
              (attempts.getD attempt ⟨false, none, false, []⟩).titleEl)], [],
            rfl, rfl, rfl, by simp, by simp⟩
    · rw [if_neg hnav]
      by_cases hret : attempt < MAX_PAGE_RETRY
      · rw [if_pos hret]
        exact ih (attempt + 1) st
      · rw [if_neg hret]
        exact ⟨0, [], [], rfl, rfl, by simp, by simp, by simp⟩

/-- The whole first pass: matched increments of `total` and `done`, titles
only appended, all dispatch-log entries from round 0. -/
theorem runFirstPass_delta (env : FetchEnv) (hashF : String → Int) (saveDir : String) :
    ∀ (arts : List ArticleInput) (st : RunState),
      ∃ (k : Nat) (l : List String) (newL : List (Nat × String × String)),
        (runFirstPass env hashF saveDir arts st).total = st.total + k ∧
        (runFirstPass env hashF saveDir arts st).done = st.done + k ∧
        (runFirstPass env hashF saveDir arts st).titles = st.titles ++ l ∧
        (runFirstPass env hashF saveDir arts st).dispatchLog = st.dispatchLog ++ newL ∧
        (∀ e ∈ newL, e.1 = 0) := by
  intro arts
  induction arts with
  | nil =>
    intro st
    exact ⟨0, [], [], rfl, rfl, by simp [runFirstPass],
      by simp [runFirstPass], by simp⟩
  | cons a rest ih =>
    intro st
    obtain ⟨k1, l1, n1, a1, a2, a3, a4, a5⟩ :=
      process_article_page_delta env hashF saveDir a.link a.attempts (MAX_PAGE_RETRY + 1) 0 st
    obtain ⟨k2, l2, n2, b1, b2, b3, b4, b5⟩ := ih
      (process_article_page env hashF saveDir a.link a.attempts (MAX_PAGE_RETRY + 1) 0 st)
    refine ⟨k1 + k2, l1 ++ l2, n1 ++ n2, ?_, ?_, ?_, ?_, ?_⟩
    · show (runFirstPass env hashF saveDir rest _).total = _
      rw [b1, a1]; omega
    · show (runFirstPass env hashF saveDir rest _).done = _
      rw [b2, a2]; omega
    · show (runFirstPass env hashF saveDir rest _).titles = _
      rw [b3, a3]; simp
    · show (runFirstPass env hashF saveDir rest _).dispatchLog = _
      rw [b4, a4]; simp
    · intro e he
      rw [List.mem_append] at he
      rcases he with h | h
      · exact a5 e h
      · exact b5 e h

/-- At the end of the first pass of a run, `done == total`. -/
theorem runFirstPass_done_eq_total (env : FetchEnv) (hashF : String → Int)
    (saveDir : String) (arts : List ArticleInput) :
    (runFirstPass env hashF saveDir arts {}).done =
      (runFirstPass env hashF saveDir arts {}).total := by
  obtain ⟨k, _, _, h1, h2, _, _, _⟩ := runFirstPass_delta env hashF saveDir arts {}
  rw [h1, h2]

theorem download_image_clean (env : FetchEnv) (henv : ∀ p, env.fs p = true)
    (round : Nat) (url saveDir : String) (ov : Option String) (ir : Bool)
    (st : RunState) (h : CleanState st) :
    CleanState (download_image env round url saveDir ov ir st).2 := by
  rw [download_image_allExists env henv]
  obtain ⟨h1, h2, h3, h4, h5, h6, h7, h8⟩ := h
  exact ⟨h1, h2, h3, h4, h5, h6, h7, by simp only [h8]⟩

theorem runDownloads_clean (env : FetchEnv) (henv : ∀ p, env.fs p = true) (saveDir : String) :
    ∀ (pairs : List (String × String)) (st : RunState), CleanState st →
      CleanState (runDownloads env saveDir pairs st) := by
  intro pairs
  induction pairs with
  | nil => intro st h; exact h
  | cons p ps ih =>
    intro st h
    exact ih _ (download_image_clean env henv 0 p.1 saveDir (some p.2) false st h)

theorem writeMappings_clean (pairs : List (String × String)) (st : RunState)
    (h : CleanState st) : CleanState (writeMappings pairs st) := by
  rw [writeMappings_eq]
  exact h

theorem process_article_page_clean (env : FetchEnv) (henv : ∀ p, env.fs p = true)
    (hashF : String → Int) (saveDir link : String) (attempts : List AttemptEnv) :
    ∀ (fuel attempt : Nat) (st : RunState), CleanState st →
      CleanState (process_article_page env hashF saveDir link attempts fuel attempt st) := by
  intro fuel
  induction fuel with
  | zero => intro attempt st h; exact h
  | succ f ih =>
    intro attempt st h
    simp only [process_article_page]
    by_cases hnav : (attempts.getD attempt ⟨false, none, false, []⟩).navOk = true
    · rw [if_pos hnav]
      by_cases hfig : (attempts.getD attempt ⟨false, none, false, []⟩).figures = true
      · rw [if_pos hfig]
        apply runDownloads_clean env henv
        apply writeMappings_clean
        obtain ⟨h1, h2, h3, h4, h5, h6, h7, h8⟩ := h
        exact ⟨h1, h2, h3, h4, h5, h6, h7, h8⟩
      · rw [if_neg hfig]
        by_cases hret : attempt < MAX_PAGE_RETRY
        · rw [if_pos hret]
          apply ih
          obtain ⟨h1, h2, h3, h4, h5, h6, h7, h8⟩ := h
          exact ⟨h1, h2, h3, h4, h5, h6, h7, h8⟩
        · rw [if_neg hret]
          obtain ⟨h1, h2, h3, h4, h5, h6, h7, h8⟩ := h
          exact ⟨h1, h2, h3, h4, h5, h6, h7, h8⟩
    · rw [if_neg hnav]
      by_cases hret : attempt < MAX_PAGE_RETRY
      · rw [if_pos hret]
        exact ih (attempt + 1) st h
      · rw [if_neg hret]
        exact h

theorem runFirstPass_clean (env : FetchEnv) (henv : ∀ p, env.fs p = true)
    (hashF : String → Int) (saveDir : String) :
    ∀ (arts : List ArticleInput) (st : RunState), CleanState st →
      CleanState (runFirstPass env hashF saveDir arts st) := by
  intro arts
  induction arts with
  | nil => intro st h; exact h
  | cons a rest ih =>
    intro st h
    exact ih _ (process_article_page_clean env henv hashF saveDir a.link a.attempts
      (MAX_PAGE_RETRY + 1) 0 st h)

/-! ## Stats bookkeeping of one dispatcher invocation -/

/-- How many increments one invocation applies to the stats mapping:
one in every branch except a non-retry FAIL or ERR, which applies none. -/
theorem download_image_statsSum (env : FetchEnv) (round : Nat) (url saveDir : String)
    (ov : Option String) (ir : Bool) (st : RunState) :
    statsSum (download_image env round url saveDir ov ir st).2 =
      statsSum st +
        (if env.fs (ov.getD (default_save_path saveDir url)) ||
            st.written.contains (ov.getD (default_save_path saveDir url)) then 1
         else
           match env.fetch url round with
           | .status c => if c = 200 then 1 else (if ir then 1 else 0)
           | .exc _ => if ir then 1 else 0) := by
  unfold download_image
  dsimp only
  by_cases hex : (env.fs (ov.getD (default_save_path saveDir url)) ||
      st.written.contains (ov.getD (default_save_path saveDir url))) = true
  · rw [if_pos hex, if_pos hex]
    simp [statsSum]
    omega
  · rw [if_neg hex, if_neg hex]
    cases hfr : env.fetch url round with
    | status c =>
      dsimp only
      by_cases hc : c = 200
      · rw [if_pos hc, if_pos hc]
        cases ir <;> simp [statsSum] <;> omega
      · rw [if_neg hc, if_neg hc]
        cases ir <;> simp [statsSum] <;> omega
    | exc m =>
      dsimp only
      cases ir <;> simp [statsSum] <;> omega

/-! ## The URL-to-path dictionary: last writer wins -/

theorem dictGet_insert_same (m : List (String × String)) (k v : String) :
    dictGet (dictInsert m k v) k = some v := by
  unfold dictInsert
  by_cases hany : m.any (fun pr => pr.1 = k) = true
  · rw [if_pos hany]
    induction m with
    | nil => simp at hany
    | cons p ps ih =>
      by_cases hp : p.1 = k
      · simp [dictGet, hp]
      · have hps : ps.any (fun pr => pr.1 = k) = true := by
          simp only [List.any_cons, Bool.or_eq_true] at hany
          rcases hany with h | h
          · exact absurd (by simpa using h) hp
          · exact h
        have := ih hps
        simpa [dictGet, hp] using this
  · rw [if_neg hany]
    have hnone : m.find? (fun pr => pr.1 = k) = none := by
      rw [List.find?_eq_none]
      intro x hx
      rw [Bool.not_eq_true] at hany ⊢
      rw [List.any_eq_false] at hany
      simpa using hany x hx
    unfold dictGet
    rw [List.find?_append, hnone]
    simp

theorem find?_mapReplace (k v k' : String) (hne : k' ≠ k) :
    ∀ m : List (String × String),
      (m.map (fun pr => if pr.1 = k then (k, v) else pr)).find? (fun pr => pr.1 = k')
        = m.find? (fun pr => pr.1 = k') := by
  intro m
  induction m with
  | nil => rfl
  | cons p ps ih =>
    by_cases hp : p.1 = k
    · have h1 : ¬ (k = k') := fun h => hne h.symm
      have h2 : ¬ (p.1 = k') := by rw [hp]; exact h1
      simp only [List.map_cons, if_pos hp, List.find?_cons, decide_eq_false h1,
        decide_eq_false h2]
      exact ih
    · simp only [List.map_cons, if_neg hp, List.find?_cons]
      by_cases hq : p.1 = k'
      · simp only [decide_eq_true hq]
      · simp only [decide_eq_false hq]
        exact ih

theorem dictGet_insert_other (m : List (String × String)) (k v k' : String)
    (hne : k' ≠ k) : dictGet (dictInsert m k v) k' = dictGet m k' := by
  unfold dictInsert
  by_cases hany : m.any (fun pr => pr.1 = k) = true
  · rw [if_pos hany]
    unfold dictGet
    rw [find?_mapReplace k v k' hne]
  · rw [if_neg hany]
    unfold dictGet
    rw [List.find?_append]
    cases hmf : m.find? (fun pr => pr.1 = k') with
    | some pr => simp
    | none => simp [hne]; exact fun h => hne h.symm

/-- A sequence of unconditional dict writes: the value finally stored under
a key is the one of the most recent write, falling back to the prior
mapping when the key was never written. -/
theorem dictGet_foldl_insert :
    ∀ (ws : List (String × String)) (m : List (String × String)) (k : String),
      dictGet (ws.foldl (fun a pr => dictInsert a pr.1 pr.2) m) k =
        match ws.reverse.find? (fun pr => pr.1 = k) with
        | some pr => some pr.2
        | none => dictGet m k := by
  intro ws
  induction ws with
  | nil => intro m k; rfl
  | cons w rest ih =>
    intro m k
    simp only [List.foldl_cons, List.reverse_cons, List.find?_append]
    rw [ih]
    cases hrf : rest.reverse.find? (fun pr => pr.1 = k) with
    | some pr => simp
    | none =>
      simp only [Option.none_or]
      by_cases hw : w.1 = k
      · simp only [List.find?_cons, decide_eq_true hw]
        subst hw
        exact dictGet_insert_same m w.1 w.2
      · simp only [List.find?_cons, decide_eq_false hw, List.find?_nil]
        exact dictGet_insert_other m w.1 w.2 k (fun h => hw h.symm)

/-! ## Image-link extraction: the filter equation -/

theorem get_image_links_aux_eq (resolve : String → String) :
    ∀ (anchors : List (Option String)) (acc : List String),
      get_image_links_aux resolve anchors acc =
        acc ++ ((anchors.filterMap id).map resolve).filter is_image_url := by
  intro anchors
  induction anchors with
  | nil => intro acc; simp [get_image_links_aux]
  | cons a rest ih =>
    intro acc
    cases a with
    | none => simp [get_image_links_aux, ih]
    | some href =>
      by_cases himg : is_image_url (resolve href) = true
      · simp [get_image_links_aux, himg, ih]
      · simp [get_image_links_aux, himg, ih]

/-- `get_image_links` keeps exactly the resolved hrefs passing
`is_image_url`, in document order. -/
theorem get_image_links_eq (resolve : String → String) (anchors : List (Option String)) :
    get_image_links resolve anchors =
      ((anchors.filterMap id).map resolve).filter is_image_url := by
  have h := get_image_links_aux_eq resolve anchors []
  simpa [get_image_links] using h

/-! ## Link collection: success and failure of the gather -/

theorem collectArticleLinks_all_ok (resolve : String → String) :
    ∀ pages : List PageOutcome, (∀ p ∈ pages, pageOk p = true) →
      collectArticleLinks resolve pages = .ok (pages.map (pageLinks resolve)).flatten := by
  intro pages
  induction pages with
  | nil => intro _; rfl
  | cons p ps ih =>
    intro hall
    have hp : pageOk p = true := hall p (by simp)
    have hps := ih (fun q hq => hall q (by simp [hq]))
    cases p with
    | ok anchors =>
      simp only [collectArticleLinks, List.map_cons] at hps ⊢
      show (gatherExcept (Except.ok (get_article_links resolve anchors) ::
        ps.map (fetch_article_links resolve))).map List.flatten = _
      simp only [gatherExcept]
      cases hg : gatherExcept (ps.map (fetch_article_links resolve)) with
      | error e => rw [hg] at hps; simp [Except.map] at hps
      | ok ls =>
        rw [hg] at hps
        simp only [Except.map] at hps ⊢
        simp only [pageLinks, List.flatten_cons]
        injection hps with hps'
        rw [hps']
    | navFail => simp [pageOk] at hp
    | waitTimeout => simp [pageOk] at hp

theorem collectArticleLinks_fail (resolve : String → String) :
    ∀ pages : List PageOutcome, (∃ p ∈ pages, pageOk p = false) →
      ∃ e, collectArticleLinks resolve pages = .error e := by
  intro pages
  induction pages with
  | nil => intro h; obtain ⟨p, hp, _⟩ := h; simp at hp
  | cons p ps ih =>
    intro h
    cases p with
    | ok anchors =>
      have hrest : ∃ q ∈ ps, pageOk q = false := by
        obtain ⟨q, hq, hq2⟩ := h
        rcases List.mem_cons.mp hq with rfl | hmem
        · simp [pageOk] at hq2
        · exact ⟨q, hmem, hq2⟩
      obtain ⟨e, he⟩ := ih hrest
      refine ⟨e, ?_⟩
      unfold collectArticleLinks at he ⊢
      simp only [List.map_cons]
      show (gatherExcept (Except.ok (get_article_links resolve anchors) ::
        ps.map (fetch_article_links resolve))).map List.flatten = _
      simp only [gatherExcept]
      cases hg : gatherExcept (ps.map (fetch_article_links resolve)) with
      | error e2 =>
        rw [hg] at he
        simp only [Except.map] at he ⊢
        exact he
      | ok ls => rw [hg] at he; simp [Except.map] at he
    | navFail => exact ⟨"goto failed", rfl⟩
    | waitTimeout => exact ⟨"wait_for_selector timeout", rfl⟩

/-! ## Bounding the retry rounds -/

theorem retryLoop_log_round_lt (env : FetchEnv) (saveDir : String) :
    ∀ (fuel round : Nat) (st : RunState),
      (∀ e ∈ st.dispatchLog, e.1 < round) →
      ∀ e ∈ (retryLoop env saveDir fuel round st).dispatchLog, e.1 < round + fuel := by
  intro fuel
  induction fuel with
  | zero =>
    intro round st h e he
    simp only [retryLoop] at he
    exact h e he
  | succ f ih =>
    intro round st h
    by_cases hf : st.failed = []
    · simp only [retryLoop, if_pos hf]
      intro e he
      have := h e he
      omega
    · simp only [retryLoop, if_neg hf]
      intro e he
      have hr : ∀ e ∈ (runRound env saveDir round st).dispatchLog, e.1 < round + 1 := by
        obtain ⟨_, _, _, _, g5⟩ := runRound_effects env saveDir round st
        rw [g5]
        intro e2 he2
        rcases List.mem_append.mp he2 with hold | hnew
        · have := h e2 hold; omega
        · obtain ⟨u, _, rfl⟩ := List.mem_map.mp hnew
          omega
      have := ih (round + 1) (runRound env saveDir round st) hr e he
      omega

/-- Every dispatcher invocation of a whole run happens in round 0 (first
pass) or in one of rounds 1 .. MAX_RETRY. -/
theorem runPipeline_round_le (env : FetchEnv) (hashF : String → Int)
    (saveDir : String) (arts : List ArticleInput) :
    ∀ e ∈ (runPipeline env hashF saveDir arts).dispatchLog, e.1 ≤ MAX_RETRY := by
  have hfp : ∀ e ∈ (runFirstPass env hashF saveDir arts {}).dispatchLog, e.1 < 1 := by
    obtain ⟨_, _, nl, _, _, _, h4, h5⟩ := runFirstPass_delta env hashF saveDir arts {}
    rw [h4]
    intro e he
    have : e ∈ nl := by simpa using he
    have := h5 e this
    omega
  intro e he
  have := retryLoop_log_round_lt env saveDir MAX_RETRY 1
    (runFirstPass env hashF saveDir arts {}) hfp e he
  simp only [MAX_RETRY] at this ⊢
  omega

/-! ## The paginator's offset arithmetic -/

theorem pyRange_mem_iff (n o : Nat) :
    o ∈ pyRange 50 n 50 ↔ 50 ≤ o ∧ o < n ∧ o % 50 = 0 := by
  unfold pyRange
  simp only [List.mem_map, List.mem_range]
  constructor
  · rintro ⟨k, hk, rfl⟩
    omega
  · rintro ⟨h1, h2, h3⟩
    exact ⟨o / 50 - 1, by omega, by omega⟩

/-! ## Claim C1 -/

/-- Claim C1, counterexample: One article with one image that 404s on the
first pass and succeeds in retry round 1: the run ends with `done = 2` but
`total = 1`, because the retry invocation increments `done` with no
matching `total` increment — refuting both `done <= total` throughout and
`done == total` at run end. -/
theorem C1_counterexample :
    (runPipeline envC1 (fun _ => 0) "d" [artC1]).done = 2 ∧
    (runPipeline envC1 (fun _ => 0) "d" [artC1]).total = 1 ∧
    ¬ ((runPipeline envC1 (fun _ => 0) "d" [artC1]).done ≤
       (runPipeline envC1 (fun _ => 0) "d" [artC1]).total) := by
  have h1 : (runPipeline envC1 (fun _ => 0) "d" [artC1]).done = 2 := rfl
  have h2 : (runPipeline envC1 (fun _ => 0) "d" [artC1]).total = 1 := rfl
  exact ⟨h1, h2, by rw [h1, h2]; omega⟩

/-- Claim C1, amended: Every dispatcher invocation increments `done` exactly
once and never touches `total`; each article's processing adds one matched
increment `k` (its dispatched image count) to both `total` and `done`, so
at the end of the *first pass* `done == total`; retry rounds never change
`total` but add one `done` per retried URL, so after any retry round runs,
`done` exceeds `total`. -/
theorem C1_amended :
    (∀ (env : FetchEnv) (round : Nat) (url saveDir : String) (ov : Option String)
        (ir : Bool) (st : RunState),
      (download_image env round url saveDir ov ir st).2.done = st.done + 1 ∧
      (download_image env round url saveDir ov ir st).2.total = st.total) ∧
    (∀ (env : FetchEnv) (hashF : String → Int) (saveDir link : String)
        (attempts : List AttemptEnv) (fuel attempt : Nat) (st : RunState),
      ∃ k, (process_article_page env hashF saveDir link attempts fuel attempt st).total
            = st.total + k ∧
        (process_article_page env hashF saveDir link attempts fuel attempt st).done
            = st.done + k) ∧
    (∀ (env : FetchEnv) (hashF : String → Int) (saveDir : String)
        (arts : List ArticleInput),
      (runFirstPass env hashF saveDir arts {}).done =
        (runFirstPass env hashF saveDir arts {}).total) ∧
    (∀ (env : FetchEnv) (saveDir : String) (fuel round : Nat) (st : RunState),
      (retryLoop env saveDir fuel round st).total = st.total) ∧
    (∀ (env : FetchEnv) (saveDir : String) (round : Nat) (st : RunState),
      (runRound env saveDir round st).done = st.done + st.failed.length) := by
  refine ⟨?_, ?_, ?_, ?_, ?_⟩
  · intro env round url saveDir ov ir st
    obtain ⟨h1, h2, _, _, _⟩ := download_image_effects env round url saveDir ov ir st
    exact ⟨h1, h2⟩
  · intro env hashF saveDir link attempts fuel attempt st
    obtain ⟨k, _, _, d1, d2, _, _, _⟩ :=
      process_article_page_delta env hashF saveDir link attempts fuel attempt st
    exact ⟨k, d1, d2⟩
  · exact runFirstPass_done_eq_total
  · intro env saveDir fuel round st
    exact (retryLoop_total env saveDir fuel round st).1
  · intro env saveDir round st
    exact (runRound_effects env saveDir round st).1

/-! ## Claim C2 -/

/-- Claim C2, counterexample: With one healthy page before it and one after
it, a listing page whose navigation fails makes the whole collection raise:
the run aborts with the error instead of yielding the sibling pages' links
— refuting "zero links for that page, siblings unaffected, run not
aborted". -/
theorem C2_counterexample :
    collectArticleLinks id [.ok [some "a1"], .navFail, .ok [some "a2"]]
      = .error "goto failed" ∧
    collectArticleLinks id [.ok [some "a1"], .navFail, .ok [some "a2"]]
      ≠ .ok ["a1", "a2"] := by
  have h : collectArticleLinks id [.ok [some "a1"], .navFail, .ok [some "a2"]]
      = .error "goto failed" := rfl
  refine ⟨h, ?_⟩
  rw [h]
  intro hok
  exact Except.noConfusion hok

/-- Claim C2, amended: `fetch_article_links` has no exception handler: when
every page renders, the collector returns each page's links in order; when
any page fails to navigate or times out, the exception propagates through
the gather and the whole collection (and hence the run) fails. -/
theorem C2_amended :
    (∀ (resolve : String → String) (pages : List PageOutcome),
      (∀ p ∈ pages, pageOk p = true) →
        collectArticleLinks resolve pages
          = .ok (pages.map (pageLinks resolve)).flatten) ∧
    (∀ (resolve : String → String) (pages : List PageOutcome),
      (∃ p ∈ pages, pageOk p = false) →
        ∃ e, collectArticleLinks resolve pages = .error e) :=
  ⟨collectArticleLinks_all_ok, collectArticleLinks_fail⟩

/-- Claim C2, witness: The amended theorem applied to a concrete healthy
crawl and a concrete crawl with one dead page. -/
theorem C2_amended_witness :
    collectArticleLinks id [PageOutcome.ok [some "a"]] = .ok ["a"] ∧
    (∃ e, collectArticleLinks id [PageOutcome.ok [some "a"], PageOutcome.navFail]
      = .error e) := by
  constructor
  · have h := C2_amended.1 id [PageOutcome.ok [some "a"]] (by
      intro p hp
      rw [List.mem_singleton] at hp
      subst hp
      rfl)
    simpa using h
  · exact C2_amended.2 id [PageOutcome.ok [some "a"], PageOutcome.navFail]
      ⟨PageOutcome.navFail, by simp, rfl⟩

/-! ## Claim C3 -/

/-- Claim C3, counterexample: An article whose page links the same image URL
twice: line 185 writes the mapping unconditionally, so the second write
replaces the first — the final mapping holds `d/T_2.jpg` although the first
write recorded `d/T_1.jpg` (as the dispatch log shows), while the spec's
first-writer-wins insert would have kept `d/T_1.jpg`. -/
theorem C3_counterexample :
    (runPipeline envC3 (fun _ => 0) "d" [artC3]).urlToPath
      = [("http://h/i.jpg", "d/T_2.jpg")] ∧
    (runPipeline envC3 (fun _ => 0) "d" [artC3]).dispatchLog
      = [(0, "http://h/i.jpg", "d/T_1.jpg"), (0, "http://h/i.jpg", "d/T_2.jpg")] ∧
    ("d/T_2.jpg" : String) ≠ "d/T_1.jpg" ∧
    ([("http://h/i.jpg", "d/T_1.jpg"), ("http://h/i.jpg", "d/T_2.jpg")].foldl
        (fun m pr => dictInsertFirstWins m pr.1 pr.2) [])
      = [("http://h/i.jpg", "d/T_1.jpg")] := by
  refine ⟨rfl, rfl, ?_, rfl⟩
  decide

/-- Claim C3, amended: The UrlToPath mapping is written unconditionally on
every dispatch: a write stores its value under the key, a later write for
the same URL replaces the earlier value (last writer wins), other keys are
untouched, and after any sequence of writes the stored value for a URL is
that of its most recent write. -/
theorem C3_amended :
    (∀ (m : List (String × String)) (k v : String),
      dictGet (dictInsert m k v) k = some v) ∧
    (∀ (m : List (String × String)) (k v k' : String), k' ≠ k →
      dictGet (dictInsert m k v) k' = dictGet m k') ∧
    (∀ (ws m : List (String × String)) (k : String),
      dictGet (ws.foldl (fun a pr => dictInsert a pr.1 pr.2) m) k =
        match ws.reverse.find? (fun pr => pr.1 = k) with
        | some pr => some pr.2
        | none => dictGet m k) :=
  ⟨dictGet_insert_same, dictGet_insert_other, fun ws m k => dictGet_foldl_insert ws m k⟩

/-- Claim C3, witness: The amended theorem applied at concrete keys. -/
theorem C3_amended_witness :
    dictGet (dictInsert [("a", "1")] "a" "2") "a" = some "2" ∧
    dictGet (dictInsert [("a", "1")] "a" "2") "b" = dictGet [("a", "1")] "b" :=
  ⟨C3_amended.1 [("a", "1")] "a" "2",
   C3_amended.2.1 [("a", "1")] "a" "2" "b" (by decide)⟩

/-! ## Claim C4 -/

/-- Claim C4, counterexample: A first-pass invocation whose fetch returns
HTTP 404: `stats` receives no increment at all (lines 72-73 guard the
`FAIL_final` counter with `is_retry`), refuting "exactly one increment per
invocation, including first-pass FAIL or ERR". -/
theorem C4_counterexample :
    statsSum (download_image envC4 0 "http://h/i.jpg" "d"
      (some "d/p.jpg") false {}).2 = 0 ∧
    statsSum ({} : RunState) = 0 ∧
    ¬ (statsSum (download_image envC4 0 "http://h/i.jpg" "d"
        (some "d/p.jpg") false {}).2 = statsSum ({} : RunState) + 1) := by
  refine ⟨rfl, rfl, ?_⟩
  intro h
  rw [show statsSum (download_image envC4 0 "http://h/i.jpg" "d"
    (some "d/p.jpg") false {}).2 = 0 from rfl] at h
  simp [statsSum] at h

/-- Claim C4, amended: Each dispatcher invocation increments the stats
mapping exactly once — SKIP, OK (first or retry), and retry-round FAIL/ERR
all count once — except a first-pass invocation ending in FAIL or ERR,
which increments no counter at all. -/
theorem C4_amended :
    ∀ (env : FetchEnv) (round : Nat) (url saveDir : String) (ov : Option String)
        (ir : Bool) (st : RunState),
      statsSum (download_image env round url saveDir ov ir st).2 =
        statsSum st +
          (if env.fs (ov.getD (default_save_path saveDir url)) ||
              st.written.contains (ov.getD (default_save_path saveDir url)) then 1
           else
             match env.fetch url round with
             | .status c => if c = 200 then 1 else (if ir then 1 else 0)
             | .exc _ => if ir then 1 else 0) :=
  download_image_statsSum

/-! ## Claim C5 -/

/-- Claim C5, counterexample: Two articles link the same image URL; both
first-pass dispatches fail. The failed attempt at `d/A_1.jpg` is never
retried at that path: every retry-round invocation targets
`url_to_path.get(url) = d/B_1.jpg`, the most recent write — refuting
"targets the identical path the original attempt used". -/
theorem C5_counterexample :
    (runPipeline envC5 (fun _ => 0) "d" [artC5A, artC5B]).dispatchLog =
      [(0, "http://h/i.jpg", "d/A_1.jpg"), (0, "http://h/i.jpg", "d/B_1.jpg"),
       (1, "http://h/i.jpg", "d/B_1.jpg"), (1, "http://h/i.jpg", "d/B_1.jpg"),
       (2, "http://h/i.jpg", "d/B_1.jpg"), (2, "http://h/i.jpg", "d/B_1.jpg")] ∧
    ("d/A_1.jpg" : String) ≠ "d/B_1.jpg" := by
  refine ⟨rfl, ?_⟩
  decide

/-- Claim C5, amended: Each retry round re-invokes the dispatcher for exactly
the URLs of the previous round's failure list, with destination
`url_to_path.get(url)` — the most recently recorded path for that URL (the
default basename path if unrecorded), which is the original attempt's path
whenever the URL was recorded once but not when a duplicate URL was
re-recorded with a different path; the loop stops at the first empty
failure set; and no invocation of a run happens after round `MAX_RETRY`. -/
theorem C5_amended :
    (∀ (env : FetchEnv) (saveDir : String) (round : Nat) (st : RunState),
      (runRound env saveDir round st).dispatchLog =
        st.dispatchLog ++ st.failed.map (fun u =>
          (round, u, (dictGet st.urlToPath u).getD (default_save_path saveDir u)))) ∧
    (∀ (env : FetchEnv) (saveDir : String) (fuel round : Nat) (st : RunState),
      st.failed = [] → retryLoop env saveDir fuel round st = st) ∧
    (∀ (env : FetchEnv) (hashF : String → Int) (saveDir : String)
        (arts : List ArticleInput),
      ∀ e ∈ (runPipeline env hashF saveDir arts).dispatchLog, e.1 ≤ MAX_RETRY) := by
  refine ⟨?_, retryLoop_stops_when_empty, runPipeline_round_le⟩
  intro env saveDir round st
  exact (runRound_effects env saveDir round st).2.2.2.2

/-- Claim C5, witness: The amended theorem applied to a concrete state with
no failures (the loop stops immediately) and to a concrete logged
invocation of a concrete run. -/
theorem C5_amended_witness :
    retryLoop envC5 "d" MAX_RETRY 1 ({} : RunState) = {} ∧
    (0, "http://h/i.jpg", "d/A_1.jpg").1 ≤ MAX_RETRY := by
  constructor
  · exact C5_amended.2.1 envC5 "d" MAX_RETRY 1 {} rfl
  · exact C5_amended.2.2 envC5 (fun _ => 0) "d" [artC5A]
      (0, "http://h/i.jpg", "d/A_1.jpg") (by decide)

/-! ## Claim C6 -/

/-- Claim C6: An invocation whose destination path already exists returns a
true flag and performs exactly a SKIP: `done` and the SKIP counter grow by
one and nothing else changes — no fetch is logged, no write happens.
Consequently a whole run over a filesystem that already has every file
writes nothing, fetches nothing, fails nothing, and classifies every one of
its `total` downloads SKIP. -/
theorem C6_skip_idempotent :
    (∀ (env : FetchEnv) (round : Nat) (url saveDir : String) (ov : Option String)
        (ir : Bool) (st : RunState),
      (env.fs (ov.getD (default_save_path saveDir url)) ||
        st.written.contains (ov.getD (default_save_path saveDir url))) = true →
      download_image env round url saveDir ov ir st =
        (true, { st with
          dispatchLog := st.dispatchLog ++
            [(round, url, ov.getD (default_save_path saveDir url))],
          done := st.done + 1, skip := st.skip + 1 })) ∧
    (∀ (fetch : String → Nat → FetchResult) (hashF : String → Int)
        (saveDir : String) (arts : List ArticleInput),
      (runPipeline ⟨fun _ => true, fetch⟩ hashF saveDir arts).written = [] ∧
      (runPipeline ⟨fun _ => true, fetch⟩ hashF saveDir arts).fetchLog = [] ∧
      (runPipeline ⟨fun _ => true, fetch⟩ hashF saveDir arts).okFirst = 0 ∧
      (runPipeline ⟨fun _ => true, fetch⟩ hashF saveDir arts).okRetry = 0 ∧
      (runPipeline ⟨fun _ => true, fetch⟩ hashF saveDir arts).failFinal = 0 ∧
      (runPipeline ⟨fun _ => true, fetch⟩ hashF saveDir arts).errFinal = 0 ∧
      (runPipeline ⟨fun _ => true, fetch⟩ hashF saveDir arts).failed = [] ∧
      (runPipeline ⟨fun _ => true, fetch⟩ hashF saveDir arts).skip =
        (runPipeline ⟨fun _ => true, fetch⟩ hashF saveDir arts).total) := by
  constructor
  · intro env round url saveDir ov ir st hex
    unfold download_image
    dsimp only
    rw [if_pos hex]
  · intro fetch hashF saveDir arts
    have henv : ∀ p, (⟨fun _ => true, fetch⟩ : FetchEnv).fs p = true := fun _ => rfl
    have hclean : CleanState (runFirstPass ⟨fun _ => true, fetch⟩ hashF saveDir arts {}) :=
      runFirstPass_clean _ henv hashF saveDir arts {}
        ⟨rfl, rfl, rfl, rfl, rfl, rfl, rfl, rfl⟩
    obtain ⟨c1, c2, c3, c4, c5, c6, c7, c8⟩ := hclean
    have hstop : runPipeline ⟨fun _ => true, fetch⟩ hashF saveDir arts
        = runFirstPass ⟨fun _ => true, fetch⟩ hashF saveDir arts {} :=
      retryLoop_stops_when_empty _ _ MAX_RETRY 1 _ c3
    have hdt := runFirstPass_done_eq_total ⟨fun _ => true, fetch⟩ hashF saveDir arts
    rw [hstop]
    exact ⟨c1, c2, c4, c5, c6, c7, c3, by rw [c8, hdt]⟩

/-- Claim C6, witness: The SKIP branch applied at a concrete invocation over
a filesystem where every path exists. -/
theorem C6_skip_idempotent_witness :
    (download_image ⟨fun _ => true, fun _ _ => FetchResult.exc "e"⟩ 0
      "http://h/i.jpg" "d" none false {}).1 = true ∧
    (download_image ⟨fun _ => true, fun _ _ => FetchResult.exc "e"⟩ 0
      "http://h/i.jpg" "d" none false {}).2.skip = 1 ∧
    (download_image ⟨fun _ => true, fun _ _ => FetchResult.exc "e"⟩ 0
      "http://h/i.jpg" "d" none false {}).2.written = [] ∧
    (download_image ⟨fun _ => true, fun _ _ => FetchResult.exc "e"⟩ 0
      "http://h/i.jpg" "d" none false {}).2.fetchLog = [] := by
  have h := C6_skip_idempotent.1 ⟨fun _ => true, fun _ _ => FetchResult.exc "e"⟩ 0
    "http://h/i.jpg" "d" none false {} rfl
  rw [h]
  exact ⟨rfl, rfl, rfl, rfl⟩

/-! ## Claim C7 -/

/-- Claim C7: Title deduplication: the registered title is never one already
in the registry; a base title not yet present is kept unchanged (the first
occurrence keeps its base); in general the registered title is the first
unused candidate `base`, `base_1`, `base_2`, ... (every earlier candidate
is already taken); all titles registered across a run are pairwise
distinct; and an untitled article gets `_` + the digits after `/post/` in
its URL, or `_` + the hash of the URL when there are none. -/
theorem C7_title_dedup :
    (∀ (ex : List String) (base : String), registerTitle ex base ∉ ex) ∧
    (∀ (ex : List String) (base : String), base ∉ ex →
      registerTitle ex base = base) ∧
    (∀ (ex : List String) (base : String),
      ∃ k, registerTitle ex base = mkCand base k ∧ mkCand base k ∉ ex ∧
        ∀ j < k, mkCand base j ∈ ex) ∧
    (∀ (hashF : String → Int) (arts : List (String × Option String)),
      (runTitles hashF arts).Nodup) ∧
    (∀ hashF : String → Int,
      computeTitle hashF "https://kemono.su/u/post/4821" none = "untitled_4821") ∧
    (computeTitle (fun _ => (77 : Int)) "https://a/b" (some "   ") = "untitled_77") := by
  refine ⟨registerTitle_fresh, registerTitle_keeps_base, registerTitle_spec, ?_, ?_, rfl⟩
  · intro hashF arts
    exact registerAll_nodup hashF arts [] List.nodup_nil
  · intro hashF
    rfl

/-- Claim C7, witness: The deduplication theorem applied at concrete
registries: a fresh base is kept, a colliding one is suffixed. -/
theorem C7_title_dedup_witness :
    registerTitle ["A"] "B" = "B" ∧
    registerTitle ["A"] "A" ∉ (["A"] : List String) :=
  ⟨C7_title_dedup.2.1 ["A"] "B" (by decide), C7_title_dedup.1 ["A"] "A"⟩

/-! ## Claim C8 -/

/-- Claim C8: The paginator parses `N` from the "Showing A - B of N" pattern
("Showing 1 - 50 of 120" yields 120) and produces exactly `[base,
base?o=50, base?o=100]` for it; when the pattern is absent, `N = 0` and the
single-element list `[base]` results; in general, the offsets attached
after the base URL are exactly the multiples of 50 from 50 up to (but
excluding) `N`. -/
theorem C8_paginator :
    totalItemsOf "Showing 1 - 50 of 120" = 120 ∧
    (∀ base : String, page_urls base (totalItemsOf "Showing 1 - 50 of 120")
      = [base, base ++ "?o=50", base ++ "?o=100"]) ∧
    (∀ (text : String) (base : String), searchShowing text.data = none →
      page_urls base (totalItemsOf text) = [base]) ∧
    (∀ (n o : Nat), o ∈ pyRange 50 n 50 ↔ 50 ≤ o ∧ o < n ∧ o % 50 = 0) ∧
    (∀ (base : String) (n : Nat), page_urls base n
      = base :: (pyRange 50 n 50).map (fun o => base ++ "?o=" ++ Nat.repr o)) := by
  have happ : ∀ (base tail1 tail2 : String), tail1.data ++ tail2.data = (tail1 ++ tail2).data →
      base ++ tail1 ++ tail2 = base ++ (tail1 ++ tail2) := by
    intro base tail1 tail2 h
    apply String.ext
    rw [String.data_append, String.data_append, String.data_append, List.append_assoc, h]
  refine ⟨rfl, ?_, ?_, pyRange_mem_iff, fun base n => rfl⟩
  · intro base
    have h120 : totalItemsOf "Showing 1 - 50 of 120" = 120 := rfl
    rw [h120]
    show base :: (pyRange 50 120 50).map (fun o => base ++ "?o=" ++ Nat.repr o) = _
    have hr : pyRange 50 120 50 = [50, 100] := rfl
    rw [hr]
    simp only [List.map_cons, List.map_nil]
    have h50 : Nat.repr 50 = "50" := rfl
    have h100 : Nat.repr 100 = "100" := rfl
    rw [h50, h100, happ base "?o=" "50" rfl, happ base "?o=" "100" rfl]
    have e1 : ("?o=" ++ "50" : String) = "?o=50" := rfl
    have e2 : ("?o=" ++ "100" : String) = "?o=100" := rfl
    rw [e1, e2]
  · intro text base h
    unfold totalItemsOf
    rw [h]
    rfl

/-- Claim C8, witness: The paginator theorem applied to a concrete
pattern-free text. -/
theorem C8_paginator_witness :
    page_urls "B" (totalItemsOf "no counts here") = ["B"] ∧
    50 ∈ pyRange 50 120 50 := by
  constructor
  · exact C8_paginator.2.2.1 "no counts here" "B" rfl
  · exact (C8_paginator.2.2.2.1 120 50).mpr (by omega)

/-! ## Claim C9 -/

/-- Claim C9, counterexample: The anchor `https://a/b.jpg?c=1` resolves to a
URL whose *path component* `/b.jpg` ends with a recognized image extension,
so by the claim it should be extracted; the code checks the whole URL
string (`url.lower().endswith(...)`), which ends in `?c=1`, so the link is
not extracted. -/
theorem C9_counterexample :
    get_image_links id [some "https://a/b.jpg?c=1"] = [] ∧
    (IMG_EXTENSIONS.any (fun e =>
      endsWithData (lowerStr (urlPathComponent "https://a/b.jpg?c=1")).data e.data))
      = true := by
  exact ⟨rfl, by decide⟩

/-- Claim C9, amended: An anchor's href is extracted if and only if, after
resolution, the *entire URL string* lowercased ends with one of the
extensions jpg, jpeg, png, gif, webp, bmp (query string included in the
check, so a trailing query defeats it); extraction preserves document
discovery order — the result is exactly the order-preserving filter of the
resolved hrefs through `is_image_url`. -/
theorem C9_amended :
    (∀ (resolve : String → String) (anchors : List (Option String)),
      get_image_links resolve anchors =
        ((anchors.filterMap id).map resolve).filter is_image_url) ∧
    (∀ (resolve : String → String) (anchors : List (Option String)) (u : String),
      u ∈ get_image_links resolve anchors ↔
        (∃ href, some href ∈ anchors ∧ resolve href = u) ∧ is_image_url u = true) := by
  refine ⟨get_image_links_eq, ?_⟩
  intro resolve anchors u
  rw [get_image_links_eq, List.mem_filter]
  constructor
  · rintro ⟨hm, hi⟩
    obtain ⟨href0, hh, rfl⟩ := List.mem_map.mp hm
    obtain ⟨oa, hoa, hid⟩ := List.mem_filterMap.mp hh
    refine ⟨⟨href0, ?_, rfl⟩, hi⟩
    have : oa = some href0 := hid
    rw [← this]
    exact hoa
  · rintro ⟨⟨href0, hmem, rfl⟩, hi⟩
    refine ⟨List.mem_map.mpr ⟨href0, ?_, rfl⟩, hi⟩
    exact List.mem_filterMap.mpr ⟨some href0, hmem, rfl⟩

/-! ## Claim C10 -/

/-- Claim C10: Titles are never removed from the registry: an article's
processing only ever appends to it, and retry rounds never touch it; in
the concrete two-attempt scenario (attempt 0 registers "T" and then finds
no figure; attempt 1 recomputes "T", which now collides with the abandoned
attempt's registration) the run ends with *both* "T" and "T_1" registered
for the single article, whose files are named from "T_1". -/
theorem C10_registry_monotone :
    (∀ (env : FetchEnv) (hashF : String → Int) (saveDir link : String)
        (attempts : List AttemptEnv) (fuel attempt : Nat) (st : RunState),
      ∃ l, (process_article_page env hashF saveDir link attempts fuel attempt st).titles
            = st.titles ++ l) ∧
    (∀ (env : FetchEnv) (saveDir : String) (fuel round : Nat) (st : RunState),
      (retryLoop env saveDir fuel round st).titles = st.titles) ∧
    (runPipeline envC10 (fun _ => 0) "d" [artC10]).titles = ["T", "T_1"] ∧
    (runPipeline envC10 (fun _ => 0) "d" [artC10]).dispatchLog
      = [(0, "http://h/i.jpg", "d/T_1_1.jpg")] := by
  refine ⟨?_, ?_, rfl, rfl⟩
  · intro env hashF saveDir link attempts fuel attempt st
    obtain ⟨_, l, _, _, _, d3, _, _⟩ :=
      process_article_page_delta env hashF saveDir link attempts fuel attempt st
    exact ⟨l, d3⟩
  · intro env saveDir fuel round st
    exact (retryLoop_total env saveDir fuel round st).2

end KemonoDL

